import Mathlib

/-!
# Verification of the data-transformation core of `get_prepare_data.py`

This file gives a shallow embedding of the two pure data transforms of the
repository and proves/refutes the specified properties about them.

* **CorpusBuilder** — `mit_list2df` (source lines 49–58) prefixes every
  non-delimiter raw line with a running sentence counter; `prepare_data`
  (source lines 61–76) then parses the prefixed lines with
  `pd.read_csv(..., delim_whitespace=True, header=None,
  names=['sentence_id','labels','words'])`, drops rows whose `words` cell is
  null, and derives the label list with `df_train["labels"].unique().tolist()`.

* **PredictionAggregator** — `test` (source lines 144–172) emits, per model
  and per sentence index, one `(world, label, sentence, model)` row per
  predicted token, concatenates all per-(model, sentence) frames
  (`pd.concat`, which raises `ValueError` when given no objects), pivots on
  `index=['world','sentence'], columns='model'` (pandas `pivot` raises
  `ValueError` on a duplicated (index, columns) combination, and its output
  rows and columns come out sorted by value), fills missing cells with `0`,
  and finally sorts by the `sentence` column.

Modelling notes for the pandas calls (pandas semantics are not in the source
text, so the model fixes them explicitly):

* fields of a row are maximal space/tab-separated runs after stripping the
  line terminator: the C tokenizer under `delim_whitespace=True` splits on
  space and tab only (characters such as `\x0b`/`\x0c` are field content);
* `readCsv3` reports a failure for every row wider than the three named
  columns; pandas raises `ParserError` exactly when the wide row *follows* a
  row of at most three fields — true of the one counterexample exercising
  this path, whose wide row sits at line 2.  pandas' implicit-index success
  for a file whose very *first* row is wide is not modelled, and every
  universal theorem below excludes over-wide rows by hypothesis, so no proved
  statement reaches that corner;
* a row narrower than three columns is padded with missing values (`NaN`);
* a field whose text is one of pandas' default NA strings (for example
  `"nan"`, `"NULL"`) is read as a missing value;
* csv quoting, stray carriage returns and interior line feeds are not
  modelled: each universal parse theorem carries a `plainLine` hypothesis
  confining its inputs to lines on which the model's space/tab tokenization
  provably coincides with the quote-aware pandas tokenizer (the concrete
  counterexamples use plain lines only);
* `str(sentence_id) + '\t' + line` followed by field-splitting always yields
  the decimal id as its own first field, so the embedding carries the pair
  `(id, line)` instead of re-parsing the decimal digits;
* lines are the result of `readlines`, i.e. contain no interior newline
  (a trailing `'\n'` at most), so per-line field-splitting coincides with
  pandas' row-splitting of the joined text;
* `DataFrame.sort_values(by=['sentence'])` (default `kind='quicksort'`,
  numpy's introsort) is modelled by one deterministic realization — a stable
  insertion sort, numpy's exact behaviour below its 16-element insertion-sort
  cutoff, which covers every concrete input considered here.  Beyond that
  regime introsort guarantees no tie order, so the order theorem about
  arbitrary inputs claims only sortedness by `sentence`, which every
  realization of the sort guarantees.
-/

namespace GetPrepareData

/-- Field separators of the pandas C tokenizer under `delim_whitespace=True`:
space and tab only (the line terminator is handled separately, and characters
such as `\x0b`/`\x0c` are ordinary field content). -/
def isFieldSep (c : Char) : Bool :=
  c = ' ' || c = '\t'

/-- Drop the line terminator (`'\n'`, or `'\r''\n'`) from the end of a raw
line's characters, as the csv reader's row splitting does. -/
def stripEol (cs : List Char) : List Char :=
  match cs.reverse with
  | '\n' :: '\r' :: rest => rest.reverse
  | '\n' :: rest => rest.reverse
  | _ => cs

/-- Accumulator-based splitting of a character list into maximal runs of
non-separator characters (`acc` holds the current run reversed). -/
def fieldsAux : List Char → List Char → List String
  | [], acc => if acc = [] then [] else [String.mk acc.reverse]
  | c :: cs, acc =>
    if isFieldSep c then
      if acc = [] then fieldsAux cs []
      else String.mk acc.reverse :: fieldsAux cs []
    else fieldsAux cs (c :: acc)

/-- The fields of one raw line, as pandas' `delim_whitespace=True` tokenizer
produces them: strip the line terminator, split on space/tab runs.  Csv
quoting is not modelled: the universal theorems below restrict their inputs
to `plainLine`s, on which quote-aware and quote-free tokenization coincide. -/
def lineFields (s : String) : List String := fieldsAux (stripEol s.data) []

/-- A character that cannot change the tokenization: not a double quote
(code 34, which would start a quoted csv field), not a carriage return
(code 13) and not a line feed (code 10, which would end the csv row early). -/
def plainChar (c : Char) : Bool :=
  !(c.toNat = 34 || c.toNat = 13 || c.toNat = 10)

/-- A raw line on which the model's tokenization provably coincides with the
pandas C tokenizer: after the line terminator, only plain characters. -/
def plainLine (l : String) : Bool := (stripEol l.data).all plainChar

/-- pandas' default NA strings: a csv field equal to one of these is read as
a missing value (`NaN`). -/
def naValues : List String :=
  ["", "#N/A", "#N/A N/A", "#NA", "-1.#IND", "-1.#QNAN", "-NaN", "-nan",
   "1.#IND", "1.#QNAN", "<NA>", "N/A", "NA", "NULL", "NaN", "None",
   "n/a", "nan", "null"]

/-- Read one csv cell: a present field that is an NA string becomes missing. -/
def cellOf (s : Option String) : Option String :=
  s.bind fun v => if v ∈ naValues then none else some v

/-- One parsed row of the three-column csv
(`names=['sentence_id','labels','words']`). -/
structure CsvRow where
  sentence_id : Nat
  labels : Option String
  words : Option String
deriving DecidableEq, Repr

/-- One token of the structured corpus table after the
`df[df['words'].notnull()]` filter.  `label` stays optional because the
filter only inspects the `words` column. -/
structure TokenRecord where
  sentence_id : Nat
  label : Option String
  token : String
deriving DecidableEq, Repr

/-- Failure of the csv parse (pandas `ParserError`). -/
inductive ParseError where
  /-- a row wider than the three named columns -/
  | tooManyFields : ParseError
deriving DecidableEq, Repr

/-- The loop body of `mit_list2df` (source lines 50–58), with the running
counter explicit: a line equal to exactly `"\n"` increments the counter and
emits nothing; any other line is emitted prefixed with the current counter.
The emitted `str(id) + '\t' + line` string is carried as the pair
`(id, line)` (see the header note on why this is faithful). -/
def mitAux (k : Nat) : List String → List (Nat × String)
  | [] => []
  | l :: ls => if l = "\n" then mitAux (k + 1) ls else (k, l) :: mitAux k ls

/-- `mit_list2df` (source lines 49–58): counter starts at 0. -/
def mit_list2df (lines : List String) : List (Nat × String) :=
  mitAux 0 lines

/-- Model of `pd.read_csv(io.StringIO(''.join(tmp_list)),
delim_whitespace=True, header=None, names=['sentence_id','labels','words'])`
applied to `mit_list2df` output: every prefixed row has the decimal id as
field one, the line's own fields following; a row with more than two own
fields (hence more than three csv fields) aborts the parse, narrower rows
are padded with missing values. -/
def readCsv3 (ps : List (Nat × String)) : Except ParseError (List CsvRow) :=
  if ps.any (fun p => 2 < (lineFields p.2).length) then
    .error .tooManyFields
  else
    .ok (ps.map fun p =>
      { sentence_id := p.1
        labels := cellOf (lineFields p.2)[0]?
        words := cellOf (lineFields p.2)[1]? })

/-- `df = df[df['words'].notnull()]` (source lines 67 and 72): keep exactly
the rows whose `words` cell is present. -/
def dropNullWords (rows : List CsvRow) : List TokenRecord :=
  rows.filterMap fun r =>
    match r.words with
    | some w => some ⟨r.sentence_id, r.labels, w⟩
    | none => none

/-- The full per-split corpus parse (source lines 64–67 resp. 69–72):
`mit_list2df`, then the three-column whitespace csv read, then the
null-`words` filter.  This is the spec's `parseSplit`. -/
def prepareSplit (lines : List String) : Except ParseError (List TokenRecord) :=
  (readCsv3 (mit_list2df lines)).map dropNullWords

/-- First-occurrence deduplication, as `pandas.Series.unique` performs it
(uniques in order of first appearance). -/
def uniqueFirst : List (Option String) → List (Option String)
  | [] => []
  | x :: xs => x :: (uniqueFirst xs).filter (· ≠ x)

/-- `label = df_train["labels"].unique().tolist()` (source line 74). -/
def deriveLabelSet (recs : List TokenRecord) : List (Option String) :=
  uniqueFirst (recs.map (·.label))

/-- Structural characterisation of the successful parse: walk the lines with
the sentence counter, keep each line owning at least two fields and a
non-NA token field, drop the rest.  `prepareSplit` agrees with it whenever
no line is over-wide (`prepareSplit_eq_recsOf`). -/
def recsOf (k : Nat) : List String → List TokenRecord
  | [] => []
  | l :: ls =>
    if l = "\n" then recsOf (k + 1) ls
    else
      match cellOf (lineFields l)[1]? with
      | some w => ⟨k, cellOf (lineFields l)[0]?, w⟩ :: recsOf k ls
      | none => recsOf k ls

/-- A raw line is *well-formed* when it owns exactly two whitespace-separated
fields and its second (token) field is not a pandas NA string: exactly the
lines that survive the `words`-not-null filter. -/
def wfLine (l : String) : Bool :=
  ((lineFields l).length == 2) && (cellOf (lineFields l)[1]?).isSome

/-- `len(df['sentence_id'].unique())` over the parsed split (`0` when the
parse fails; every theorem using it establishes success separately). -/
def sentenceIdCount (lines : List String) : Nat :=
  match prepareSplit lines with
  | .ok recs => ((recs.map (·.sentence_id)).dedup).length
  | .error _ => 0

/-- The number of blank delimiter lines occurring before the last content
(non-`"\n"`) line of the input: strip trailing blanks, count the rest. -/
def blanksBeforeLastContent (lines : List String) : Nat :=
  ((lines.reverse.dropWhile (fun l => l == "\n")).reverse).count "\n"

lemma wfLine_ne_newline {l : String} (h : wfLine l = true) : l ≠ "\n" := by
  intro hl
  subst hl
  exact absurd h (by decide)

lemma mitAux_any_wide (k : Nat) (lines : List String) :
    ((mitAux k lines).any fun p => decide (2 < (lineFields p.2).length)) =
      (lines.any fun l => decide (2 < (lineFields l).length)) := by
  induction lines generalizing k with
  | nil => rfl
  | cons l ls ih =>
    by_cases hl : l = "\n"
    · subst hl
      have hm : mitAux k ("\n" :: ls) = mitAux (k + 1) ls := by simp [mitAux]
      rw [hm, List.any_cons]
      have h0 : decide (2 < (lineFields "\n").length) = false := by decide
      rw [h0, Bool.false_or]
      exact ih (k + 1)
    · simp [mitAux, hl, List.any_cons, ih]

lemma dropNull_map_mitAux (k : Nat) (lines : List String) :
    dropNullWords ((mitAux k lines).map fun p =>
      { sentence_id := p.1
        labels := cellOf (lineFields p.2)[0]?
        words := cellOf (lineFields p.2)[1]? }) = recsOf k lines := by
  induction lines generalizing k with
  | nil => rfl
  | cons l ls ih =>
    by_cases hl : l = "\n"
    · subst hl
      simp only [mitAux, if_pos rfl, recsOf]
      exact ih (k + 1)
    · simp only [mitAux, if_neg hl, recsOf, List.map_cons, dropNullWords,
        List.filterMap_cons]
      cases h1 : cellOf (lineFields l)[1]? with
      | none => simpa [dropNullWords, h1] using ih k
      | some w => simpa [dropNullWords, h1] using ih k

/-- Bridge: `prepareSplit` fails exactly when some line is over-wide, and on
success returns the structural walk `recsOf 0`. -/
lemma prepareSplit_eq (lines : List String) :
    prepareSplit lines =
      if lines.any (fun l => decide (2 < (lineFields l).length)) then
        .error .tooManyFields
      else .ok (recsOf 0 lines) := by
  unfold prepareSplit readCsv3 mit_list2df
  rw [show ((mitAux 0 lines).any fun p => decide (2 < (lineFields p.2).length)) =
      (lines.any fun l => decide (2 < (lineFields l).length)) from mitAux_any_wide 0 lines]
  by_cases h : (lines.any fun l => decide (2 < (lineFields l).length)) = true
  · rw [if_pos h, if_pos h]
    rfl
  · simp only [Bool.not_eq_true] at h
    rw [if_neg (by simp [h]), if_neg (by simp [h])]
    show Except.ok (dropNullWords _) = _
    rw [dropNull_map_mitAux]

lemma recsOf_append (k : Nat) (L1 L2 : List String) :
    recsOf k (L1 ++ L2) = recsOf k L1 ++ recsOf (k + L1.count "\n") L2 := by
  induction L1 generalizing k with
  | nil => simp [recsOf]
  | cons l ls ih =>
    by_cases hl : l = "\n"
    · subst hl
      rw [show ("\n" :: ls) ++ L2 = "\n" :: (ls ++ L2) from rfl,
        show recsOf k ("\n" :: (ls ++ L2)) = recsOf (k + 1) (ls ++ L2) from by
          simp [recsOf],
        show recsOf k ("\n" :: ls) = recsOf (k + 1) ls from by simp [recsOf],
        ih (k + 1),
        show ("\n" :: ls).count "\n" = ls.count "\n" + 1 from by simp,
        show k + (ls.count "\n" + 1) = k + 1 + ls.count "\n" from by omega]
    · have h1 : (l :: ls) ++ L2 = l :: (ls ++ L2) := rfl
      have hc : (l :: ls).count "\n" = ls.count "\n" := by
        simp [List.count_cons, hl]
      rw [h1, hc]
      cases hcell : cellOf (lineFields l)[1]? with
      | none =>
        rw [show recsOf k (l :: (ls ++ L2)) = recsOf k (ls ++ L2) from by
            simp [recsOf, hl, hcell],
          show recsOf k (l :: ls) = recsOf k ls from by simp [recsOf, hl, hcell],
          ih k]
      | some w =>
        rw [show recsOf k (l :: (ls ++ L2)) =
            ⟨k, cellOf (lineFields l)[0]?, w⟩ :: recsOf k (ls ++ L2) from by
            simp [recsOf, hl, hcell],
          show recsOf k (l :: ls) =
            ⟨k, cellOf (lineFields l)[0]?, w⟩ :: recsOf k ls from by
            simp [recsOf, hl, hcell],
          ih k, List.cons_append]

lemma recsOf_all_blank (k : Nat) (L : List String) (h : ∀ t ∈ L, t = "\n") :
    recsOf k L = [] := by
  induction L generalizing k with
  | nil => rfl
  | cons l ls ih =>
    have hl : l = "\n" := h l (List.mem_cons_self l ls)
    subst hl
    simp only [recsOf, if_pos rfl]
    exact ih (k + 1) fun t ht => h t (List.mem_cons_of_mem _ ht)

lemma recsOf_sid_ge (k : Nat) (L : List String) :
    ∀ r ∈ recsOf k L, k ≤ r.sentence_id := by
  induction L generalizing k with
  | nil => intro r hr; cases hr
  | cons l ls ih =>
    intro r hr
    by_cases hl : l = "\n"
    · subst hl
      simp only [recsOf, if_pos rfl] at hr
      exact Nat.le_of_succ_le (ih (k + 1) r hr)
    · simp only [recsOf, if_neg hl] at hr
      cases hw : cellOf (lineFields l)[1]? with
      | none =>
        rw [hw] at hr
        exact ih k r hr
      | some w =>
        rw [hw] at hr
        rcases List.mem_cons.mp hr with h | h
        · subst h; exact Nat.le_refl k
        · exact ih k r h

lemma recsOf_head_wf (k : Nat) (l : String) (ls : List String)
    (hl : wfLine l = true) :
    k ∈ (recsOf k (l :: ls)).map (·.sentence_id) := by
  have hne : l ≠ "\n" := wfLine_ne_newline hl
  have hsome : (cellOf (lineFields l)[1]?).isSome = true := by
    have := (Bool.and_eq_true _ _).mp hl
    exact this.2
  obtain ⟨w, hw⟩ := Option.isSome_iff_exists.mp hsome
  simp only [recsOf, if_neg hne, hw, List.map_cons]
  exact List.mem_cons_self _ _

/-- Counting kernel for C3: over a region that starts with a content line,
ends with a well-formed content line, has no two adjacent delimiters and only
well-formed content lines, the number of distinct sentence ids is the number
of delimiters plus one. -/
lemma countAux :
    ∀ (n : Nat) (body : List String) (c : String) (k : Nat),
      body.length ≤ n →
      (∀ l ∈ body, l = "\n" ∨ wfLine l = true) →
      wfLine c = true →
      (body ++ [c]).head? ≠ some "\n" →
      List.Chain' (fun a b => a = "\n" → b ≠ "\n") (body ++ [c]) →
      ((recsOf k (body ++ [c])).map (·.sentence_id)).dedup.length =
        body.count "\n" + 1 := by
  intro n
  induction n with
  | zero =>
    intro body c k hlen hwf hc _ _
    have hb : body = [] := List.length_eq_zero.mp (Nat.le_zero.mp hlen)
    subst hb
    have hne : c ≠ "\n" := wfLine_ne_newline hc
    have hsome : (cellOf (lineFields c)[1]?).isSome = true :=
      ((Bool.and_eq_true _ _).mp hc).2
    obtain ⟨w, hw⟩ := Option.isSome_iff_exists.mp hsome
    simp [recsOf, hne, hw, List.count_nil]
  | succ n ih =>
    intro body c k hlen hwf hc hhead hchain
    cases body with
    | nil =>
      have hne : c ≠ "\n" := wfLine_ne_newline hc
      have hsome : (cellOf (lineFields c)[1]?).isSome = true :=
        ((Bool.and_eq_true _ _).mp hc).2
      obtain ⟨w, hw⟩ := Option.isSome_iff_exists.mp hsome
      simp [recsOf, hne, hw, List.count_nil]
    | cons l body' =>
      have hlne : l ≠ "\n" := by
        intro hl
        exact hhead (by simp [hl])
      have hlwf : wfLine l = true := by
        rcases hwf l (List.mem_cons_self _ _) with h | h
        · exact absurd h hlne
        · exact h
      have hsome : (cellOf (lineFields l)[1]?).isSome = true :=
        ((Bool.and_eq_true _ _).mp hlwf).2
      obtain ⟨w, hw⟩ := Option.isSome_iff_exists.mp hsome
      have hcount : (l :: body').count "\n" = body'.count "\n" := by
        simp [List.count_cons, hlne]
      cases body' with
      | nil =>
        -- region [l, c], both content
        have hne : c ≠ "\n" := wfLine_ne_newline hc
        have hsomec : (cellOf (lineFields c)[1]?).isSome = true :=
          ((Bool.and_eq_true _ _).mp hc).2
        obtain ⟨wc, hwc⟩ := Option.isSome_iff_exists.mp hsomec
        simp [recsOf, hlne, hne, hw, hwc, List.count_cons, List.dedup_cons_of_mem]
      | cons l2 body'' =>
        by_cases hl2 : l2 = "\n"
        · -- l, then a delimiter, then a region starting with content
          subst hl2
          have hchain' : List.Chain' (fun a b => a = "\n" → b ≠ "\n")
              (("\n" :: body'') ++ [c]) := (List.chain'_cons.mp
                (by simpa using hchain)).2
          have hwf'' : ∀ x ∈ body'', x = "\n" ∨ wfLine x = true := fun x hx =>
            hwf x (by simp [hx])
          have hhead'' : (body'' ++ [c]).head? ≠ some "\n" := by
            cases body'' with
            | nil =>
              simp only [List.nil_append, List.head?_cons]
              intro hcontr
              exact wfLine_ne_newline hc (Option.some.inj hcontr)
            | cons l3 body3 =>
              have hchain2 : List.Chain' (fun a b => a = "\n" → b ≠ "\n")
                  ("\n" :: l3 :: (body3 ++ [c])) := by simpa using hchain'
              have h3 := (List.chain'_cons.mp hchain2).1 rfl
              simp only [List.cons_append, List.head?_cons]
              intro hcontr
              exact h3 (Option.some.inj hcontr)
          have hchain'' : List.Chain' (fun a b => a = "\n" → b ≠ "\n")
              (body'' ++ [c]) := by
            have := hchain'.tail
            simpa using this
          have ihv := ih body'' c (k + 1) (by simp at hlen ⊢; omega)
            hwf'' hc hhead'' hchain''
          have hrec : recsOf k ((l :: "\n" :: body'') ++ [c]) =
              ⟨k, cellOf (lineFields l)[0]?, w⟩ ::
                recsOf (k + 1) (body'' ++ [c]) := by
            simp [recsOf, hlne, hw]
          rw [hrec]
          have hnot : k ∉ ((recsOf (k + 1) (body'' ++ [c])).map
              (·.sentence_id)) := by
            intro hmem
            obtain ⟨r, hr, hrk⟩ := List.mem_map.mp hmem
            have := recsOf_sid_ge (k + 1) (body'' ++ [c]) r hr
            omega
          simp only [List.map_cons, List.dedup_cons_of_not_mem hnot,
            List.length_cons, ihv]
          simp [List.count_cons, hlne]
        · -- l, then another content line: same sentence id continues
          have hchain' : List.Chain' (fun a b => a = "\n" → b ≠ "\n")
              ((l2 :: body'') ++ [c]) := (List.chain'_cons.mp
                (by simpa using hchain)).2
          have hwf' : ∀ x ∈ l2 :: body'', x = "\n" ∨ wfLine x = true :=
            fun x hx => hwf x (by simp at hx ⊢; tauto)
          have hhead' : ((l2 :: body'') ++ [c]).head? ≠ some "\n" := by
            simp only [List.cons_append, List.head?_cons]
            intro hcontr
            exact hl2 (Option.some.inj hcontr)
          have ihv := ih (l2 :: body'') c k (by simp at hlen ⊢; omega)
            hwf' hc hhead' hchain'
          have hl2wf : wfLine l2 = true := by
            rcases hwf l2 (by simp) with h | h
            · exact absurd h hl2
            · exact h
          have hmem : k ∈ ((recsOf k ((l2 :: body'') ++ [c])).map
              (·.sentence_id)) := by
            simpa using recsOf_head_wf k l2 (body'' ++ [c]) hl2wf
          have hrec : recsOf k ((l :: l2 :: body'') ++ [c]) =
              ⟨k, cellOf (lineFields l)[0]?, w⟩ ::
                recsOf k ((l2 :: body'') ++ [c]) := by
            simp [recsOf, hlne, hw]
          rw [hrec]
          simp only [List.map_cons, List.dedup_cons_of_mem hmem, ihv]
          simp [List.count_cons, hlne]

lemma dropWhile_append_all {p : String → Bool} {xs ys : List String}
    (h : ∀ x ∈ xs, p x = true) :
    (xs ++ ys).dropWhile p = ys.dropWhile p := by
  induction xs with
  | nil => rfl
  | cons x xs ih =>
    simp only [List.cons_append, List.dropWhile_cons,
      h x (List.mem_cons_self _ _), if_pos]
    exact ih fun y hy => h y (List.mem_cons_of_mem _ hy)

lemma blanks_of_trailing (body : List String) (c : String) (trail : List String)
    (hc : c ≠ "\n") (htrail : ∀ t ∈ trail, t = "\n") :
    blanksBeforeLastContent (body ++ c :: trail) = body.count "\n" := by
  unfold blanksBeforeLastContent
  have h1 : (body ++ c :: trail).reverse =
      trail.reverse ++ (c :: body.reverse) := by
    simp [List.reverse_append]
  rw [h1, dropWhile_append_all (fun x hx => by
    have := htrail x (by simpa using hx)
    simp [this])]
  have h2 : (c :: body.reverse).dropWhile (fun l => l == "\n") =
      c :: body.reverse := by
    rw [List.dropWhile_cons]
    simp [hc]
  rw [h2]
  have h3 : (c :: body.reverse).reverse = body ++ [c] := by simp
  rw [h3]
  simp [List.count_append, List.count_singleton', hc]

lemma wfLine_fields_two {l : String} (h : wfLine l = true) :
    (lineFields l).length = 2 := by
  have := ((Bool.and_eq_true _ _).mp h).1
  simpa using this

/-- **C3 (amended)** — For raw line sequences consisting of a region that
starts with a content line, contains only well-formed *plain* content lines
(no quote, carriage return or interior line feed, so the tokenization is the
pandas one) and no two adjacent blank delimiter lines, ends in such a
content line, and is followed only by trailing blanks, the number of
distinct `sentence_id` values in CorpusBuilder's output equals the number of
blank delimiter lines before the last content line **plus one** (the claimed
equality without the `+ 1` fails: see the counterexample). -/
theorem c3_distinct_sentence_ids (body : List String) (c : String)
    (trail : List String)
    (hwf : ∀ l ∈ body, l = "\n" ∨ (wfLine l = true ∧ plainLine l = true))
    (hcwf : wfLine c = true)
    (hcpl : plainLine c = true)
    (hhead : (body ++ [c]).head? ≠ some "\n")
    (hchain : List.Chain' (fun a b => a = "\n" → b ≠ "\n") (body ++ [c]))
    (htrail : ∀ t ∈ trail, t = "\n") :
    sentenceIdCount (body ++ c :: trail) =
      blanksBeforeLastContent (body ++ c :: trail) + 1 := by
  have hwf0 : ∀ l ∈ body, l = "\n" ∨ wfLine l = true := fun l hl =>
    (hwf l hl).imp id And.left
  have hwide : ((body ++ c :: trail).any
      fun l => decide (2 < (lineFields l).length)) = false := by
    rw [List.any_eq_false]
    intro l hl
    simp only [decide_eq_true_eq, Nat.not_lt]
    rcases List.mem_append.mp hl with h | h
    · rcases hwf0 l h with h' | h'
      · subst h'
        decide
      · rw [wfLine_fields_two h']
    · rcases List.mem_cons.mp h with h' | h'
      · subst h'
        rw [wfLine_fields_two hcwf]
      · have := htrail l h'
        subst this
        decide
  have hps : prepareSplit (body ++ c :: trail) =
      .ok (recsOf 0 (body ++ c :: trail)) := by
    rw [prepareSplit_eq, hwide]
    rfl
  have hsplit : body ++ c :: trail = (body ++ [c]) ++ trail := by
    rw [List.append_assoc]
    rfl
  have hrecs : recsOf 0 (body ++ c :: trail) = recsOf 0 (body ++ [c]) := by
    rw [hsplit, recsOf_append, recsOf_all_blank _ _ htrail, List.append_nil]
  have hcount := countAux body.length body c 0 (Nat.le_refl _) hwf0 hcwf
    hhead hchain
  unfold sentenceIdCount
  rw [hps, hrecs]
  show ((recsOf 0 (body ++ [c])).map (·.sentence_id)).dedup.length =
    blanksBeforeLastContent (body ++ c :: trail) + 1
  rw [hcount, blanks_of_trailing body c trail
    (wfLine_ne_newline hcwf) htrail]

/-- **C3 counterexample** — on input `["O a\n"]` there is one distinct
`sentence_id` (namely 0) but zero blank delimiter lines before the last
content line, so the claimed equality (without `+ 1`) is false. -/
theorem c3_counterexample :
    sentenceIdCount ["O a\n"] ≠ blanksBeforeLastContent ["O a\n"] := by
  decide

/-- Witness for `c3_distinct_sentence_ids` at a concrete input with one
interior delimiter and one trailing delimiter. -/
theorem c3_witness :
    ((∀ l ∈ ["O a\n", "\n"], l = "\n" ∨
        (wfLine l = true ∧ plainLine l = true)) ∧
      wfLine "O b\n" = true ∧ plainLine "O b\n" = true ∧
      ((["O a\n", "\n"] ++ ["O b\n"]).head? ≠ some "\n") ∧
      List.Chain' (fun a b => a = "\n" → b ≠ "\n") (["O a\n", "\n"] ++ ["O b\n"]) ∧
      (∀ t ∈ ["\n"], t = "\n")) ∧
    sentenceIdCount (["O a\n", "\n"] ++ "O b\n" :: ["\n"]) =
      blanksBeforeLastContent (["O a\n", "\n"] ++ "O b\n" :: ["\n"]) + 1 :=
  ⟨⟨by decide, by decide, by decide, by decide, by simp [List.chain'_cons],
      by decide⟩,
    c3_distinct_sentence_ids ["O a\n", "\n"] "O b\n" ["\n"]
      (by decide) (by decide) (by decide) (by decide)
      (by simp [List.chain'_cons]) (by decide)⟩

/-- **C4 (amended)** — Over *plain* lines (no quote, carriage return or
interior line feed, so the model's tokenization is the pandas one), non-blank
lines with *fewer* than two space/tab-separated fields (token field empty or
missing, including NA-valued tokens) are silently omitted while all
well-formed lines are returned (`recsOf` walks the lines keeping exactly the
lines with a second, non-NA field); but this only holds when no line has
three or more fields — a wider line is **not** silently omitted, it aborts
the parse with an error (see the counterexample). -/
theorem c4_narrow_lines_dropped (lines : List String)
    (h : ∀ l ∈ lines, plainLine l = true ∧ (lineFields l).length ≤ 2) :
    prepareSplit lines = .ok (recsOf 0 lines) := by
  rw [prepareSplit_eq]
  have hany : (lines.any fun l => decide (2 < (lineFields l).length)) = false := by
    rw [List.any_eq_false]
    intro l hl
    simp only [decide_eq_true_eq, Nat.not_lt]
    exact (h l hl).2
  rw [hany]
  rfl

/-- **C4 counterexample** — the line `"O a b\n"` has three fields; instead of
being silently omitted it makes the whole parse raise (pandas `ParserError`:
four whitespace fields after the id prefix, against three named columns). -/
theorem c4_counterexample :
    prepareSplit ["O a\n", "O a b\n"] = .error .tooManyFields := rfl

/-- Witness for `c4_narrow_lines_dropped`: a mix of well-formed lines, a
token-less line, a whitespace-only line and a delimiter. -/
theorem c4_witness :
    (∀ l ∈ ["O a\n", "Q\n", " \n", "\n", "B x\n"],
      plainLine l = true ∧ (lineFields l).length ≤ 2) ∧
    prepareSplit ["O a\n", "Q\n", " \n", "\n", "B x\n"] =
      .ok (recsOf 0 ["O a\n", "Q\n", " \n", "\n", "B x\n"]) :=
  ⟨by decide, c4_narrow_lines_dropped _ (by decide)⟩

/-- **C8 (confirmed)** — the concrete scenario: the four input lines parse to
exactly the three claimed TokenRecords (sentence ids 0,0,1) and the derived
label list is `B-PER`, `O`. -/
theorem c8_concrete_scenario :
    prepareSplit ["B-PER John\n", "O likes\n", "\n", "O Movies\n"] =
      .ok [⟨0, some "B-PER", "John"⟩, ⟨0, some "O", "likes"⟩,
        ⟨1, some "O", "Movies"⟩] ∧
    deriveLabelSet [⟨0, some "B-PER", "John"⟩, ⟨0, some "O", "likes"⟩,
        ⟨1, some "O", "Movies"⟩] = [some "B-PER", some "O"] :=
  ⟨rfl, rfl⟩

lemma mem_uniqueFirst {x : Option String} :
    ∀ {l : List (Option String)}, x ∈ uniqueFirst l ↔ x ∈ l := by
  intro l
  induction l with
  | nil => simp [uniqueFirst]
  | cons y ys ih =>
    simp only [uniqueFirst, List.mem_cons, List.mem_filter]
    constructor
    · rintro (rfl | ⟨hx, _⟩)
      · exact Or.inl rfl
      · exact Or.inr (ih.mp hx)
    · rintro (rfl | hx)
      · exact Or.inl rfl
      · by_cases hxy : x = y
        · exact Or.inl hxy
        · exact Or.inr ⟨ih.mpr hx, by simpa using hxy⟩

/-- **C9 (confirmed)** — `deriveLabelSet` yields, as a set, exactly the
distinct label values present in the records, and is order-independent:
permuting the record sequence leaves the label set unchanged. -/
theorem c9_labelset_order_independent (r1 r2 : List TokenRecord)
    (h : r1.Perm r2) :
    (deriveLabelSet r1).toFinset = (deriveLabelSet r2).toFinset ∧
    ∀ x, x ∈ deriveLabelSet r1 ↔ x ∈ r1.map (·.label) := by
  constructor
  · ext x
    simp only [List.mem_toFinset, deriveLabelSet, mem_uniqueFirst]
    exact (h.map (·.label)).mem_iff
  · intro x
    exact mem_uniqueFirst

/-- Witness for `c9_labelset_order_independent` at a two-record permutation. -/
theorem c9_witness :
    ([⟨0, some "B-PER", "a"⟩, ⟨0, some "O", "b"⟩] : List TokenRecord).Perm
      [⟨0, some "O", "b"⟩, ⟨0, some "B-PER", "a"⟩] ∧
    ((deriveLabelSet [⟨0, some "B-PER", "a"⟩, ⟨0, some "O", "b"⟩]).toFinset =
        (deriveLabelSet [⟨0, some "O", "b"⟩, ⟨0, some "B-PER", "a"⟩]).toFinset ∧
      ∀ x, x ∈ deriveLabelSet [⟨0, some "B-PER", "a"⟩, ⟨0, some "O", "b"⟩] ↔
        x ∈ ([⟨0, some "B-PER", "a"⟩, ⟨0, some "O", "b"⟩] :
          List TokenRecord).map (·.label)) :=
  ⟨by decide, c9_labelset_order_independent _ _ (by decide)⟩

/-- **C10 (confirmed)** — a whitespace-only line such as `" \n"` is not a
delimiter (only the exact string `"\n"` is, by the `line == '\n'` test):
over inputs whose lines are plain and at most two fields wide (so the parse
succeeds and stays inside the faithfully modelled domain), inserting it
anywhere neither increments the sentence counter nor yields a TokenRecord —
the whole parse is unchanged. -/
theorem c10_space_line_not_delimiter (ls1 ls2 : List String)
    (h : ∀ l ∈ ls1 ++ ls2, plainLine l = true ∧ (lineFields l).length ≤ 2) :
    prepareSplit (ls1 ++ " \n" :: ls2) = prepareSplit (ls1 ++ ls2) := by
  rw [prepareSplit_eq, prepareSplit_eq]
  have hfields : lineFields " \n" = [] := rfl
  have hno : ((ls1 ++ ls2).any
      fun l => decide (2 < (lineFields l).length)) = false := by
    rw [List.any_eq_false]
    intro l hl
    simp only [decide_eq_true_eq, Nat.not_lt]
    exact (h l hl).2
  have hcond : ((ls1 ++ " \n" :: ls2).any
        fun l => decide (2 < (lineFields l).length)) =
      ((ls1 ++ ls2).any fun l => decide (2 < (lineFields l).length)) := by
    simp [List.any_append, List.any_cons, hfields]
  rw [hcond, hno]
  rw [if_neg (by simp), if_neg (by simp)]
  have hskip : ∀ j, recsOf j (" \n" :: ls2) = recsOf j ls2 := by
    intro j
    have hne : (" \n" : String) ≠ "\n" := by decide
    have hcell : cellOf (lineFields " \n")[1]? = none := rfl
    simp [recsOf, hne, hcell]
  rw [recsOf_append, recsOf_append, hskip]

/-- Witness for `c10_space_line_not_delimiter` around a delimiter and a
well-formed line. -/
theorem c10_witness :
    (∀ l ∈ ["O a\n"] ++ ["\n", "B x\n"],
      plainLine l = true ∧ (lineFields l).length ≤ 2) ∧
    prepareSplit (["O a\n"] ++ " \n" :: ["\n", "B x\n"]) =
      prepareSplit (["O a\n"] ++ ["\n", "B x\n"]) :=
  ⟨by decide, c10_space_line_not_delimiter _ _ (by decide)⟩

/-! ## PredictionAggregator (`test`, source lines 144–172)

The per-model prediction capability (`NERModel.predict`) is opaque: the
aggregator is parameterised by the association list from model name to its
per-sentence prediction lists, exactly the data the loop at source lines
148–163 consumes.  The `sentences_list` argument is kept — as in the source,
where it is only ever passed to `predict` — to state how (little) the
aggregation depends on it. -/

/-- One row of the concatenated prediction frame (source lines 157–163):
column names follow the source (`world` really is the token text). -/
structure PredRow where
  world : String
  label : String
  sentence : Nat
  model : String
deriving DecidableEq, Repr

/-- The rows appended to `sentence_li`, in emission order: models in mapping
order, per model the sentences in index order, per sentence the predicted
tokens in order. -/
def emitRows (pbm : List (String × List (List (String × String)))) :
    List PredRow :=
  pbm.flatMap fun mp =>
    mp.2.enum.flatMap fun ip =>
      ip.2.map fun tl =>
        { world := tl.1, label := tl.2, sentence := ip.1, model := mp.1 }

/-- Failures of the aggregation pipeline. -/
inductive AggError where
  /-- `pd.concat` with an empty object list raises `ValueError` -/
  | noObjectsToConcatenate : AggError
  /-- `DataFrame.pivot` raises `ValueError` when an (index, columns)
  combination is duplicated -/
  | duplicateIndex : AggError
deriving DecidableEq, Repr

/-- A cell of the pivoted table: a model's predicted label, or the `0` that
`fillna(0)` puts where the model emitted no prediction for the key. -/
inductive Cell where
  | lab (s : String) : Cell
  | zero : Cell
deriving DecidableEq, Repr

/-- One row of the final comparison table: the key pair plus one labelled
cell per model column (columns in pivot order). -/
structure ComparisonRow where
  world : String
  sentence : Nat
  cells : List (String × Cell)
deriving DecidableEq, Repr

/-- First-occurrence deduplication, generic. -/
def dedupFirst {α : Type} [DecidableEq α] : List α → List α
  | [] => []
  | x :: xs => x :: (dedupFirst xs).filter (· ≠ x)

/-- Insert `x` before the first element it `le`-precedes (insertion step of a
stable sort). -/
def insertBy {α : Type} (le : α → α → Bool) (x : α) : List α → List α
  | [] => [x]
  | y :: ys => if le x y then x :: y :: ys else y :: insertBy le x ys

/-- Stable insertion sort: earlier elements are inserted later and land in
front of their ties, so ties keep their original relative order.  Models both
the value-sorting pandas `unstack` applies to the pivoted index/columns and
`sort_values(kind='quicksort')` (see the header note on stability). -/
def sortBy {α : Type} (le : α → α → Bool) : List α → List α
  | [] => []
  | x :: xs => insertBy le x (sortBy le xs)

/-- Code-point lexicographic comparison of character lists: Python's string
`<`, the order pandas sorts an object (string) key column by. -/
def strLtB : List Char → List Char → Bool
  | _, [] => false
  | [], _ :: _ => true
  | a :: as, b :: bs =>
    if a.toNat < b.toNat then true
    else if b.toNat < a.toNat then false
    else strLtB as bs

/-- Python string `<` on `String`. -/
def strLt (a b : String) : Bool := strLtB a.data b.data

/-- Python string `<=`. -/
def strLe (a b : String) : Bool := !(strLt b a)

/-- Lexicographic (world, sentence) order on pivot keys — the order pandas
`unstack` leaves the pivoted row index in. -/
def leWS (a b : String × Nat) : Bool :=
  strLt a.1 b.1 || (decide (a.1 = b.1) && decide (a.2 ≤ b.2))

/-- `sort_values(by=['sentence'])` comparison. -/
def leS (a b : ComparisonRow) : Bool :=
  decide (a.sentence ≤ b.sentence)

/-- The pivoted column set: the distinct values of the `model` column, in
sorted order (pandas `unstack` sorts the new column level). -/
def modelColumns (rows : List PredRow) : List String :=
  sortBy strLe (dedupFirst (rows.map (·.model)))

/-- The pivoted cell for key `(w, s)` and model column `m`: the (unique,
given no duplicate (world, sentence, model) triple) matching row's label,
else the `fillna` default `0`. -/
def lookupCell (rows : List PredRow) (w : String) (s : Nat) (m : String) :
    Cell :=
  match rows.find? (fun r =>
      decide (r.world = w ∧ r.sentence = s ∧ r.model = m)) with
  | some r => Cell.lab r.label
  | none => Cell.zero

/-- One row of the pivoted table. -/
def pivotRow (rows : List PredRow) (cols : List String) (k : String × Nat) :
    ComparisonRow :=
  { world := k.1
    sentence := k.2
    cells := cols.map fun m => (m, lookupCell rows k.1 k.2 m) }

/-- `df.pivot(index=['world','sentence'], columns='model')` followed by
`fillna(0)` and `reset_index()`: one row per distinct key, keys sorted by
(world, sentence), one cell per model column. -/
def pivotTable (rows : List PredRow) : List ComparisonRow :=
  (sortBy leWS (dedupFirst (rows.map fun r => (r.world, r.sentence)))).map
    (pivotRow rows (modelColumns rows))

/-- The aggregation pipeline of `test` (source lines 144–172) with the
model-to-predictions mapping explicit: `pd.concat` fails when no frame was
appended (no model, or every model's prediction list empty); `pivot` fails on
a duplicated (world, sentence, model) triple; otherwise pivot, fill, and the
final sort by `sentence`. -/
def aggregate (sentences : List String)
    (pbm : List (String × List (List (String × String)))) :
    Except AggError (List ComparisonRow) :=
  if pbm.all (fun mp => mp.2.isEmpty) then
    .error .noObjectsToConcatenate
  else if ((emitRows pbm).map fun r => (r.world, r.sentence, r.model)).Nodup
  then
    .ok (sortBy leS (pivotTable (emitRows pbm)))
  else
    .error .duplicateIndex

/-! ### Generic facts about `dedupFirst`, `insertBy`, `sortBy` -/

lemma mem_dedupFirst {α : Type} [DecidableEq α] {x : α} :
    ∀ {l : List α}, x ∈ dedupFirst l ↔ x ∈ l := by
  intro l
  induction l with
  | nil => simp [dedupFirst]
  | cons y ys ih =>
    simp only [dedupFirst, List.mem_cons, List.mem_filter]
    constructor
    · rintro (rfl | ⟨hx, _⟩)
      · exact Or.inl rfl
      · exact Or.inr (ih.mp hx)
    · rintro (rfl | hx)
      · exact Or.inl rfl
      · by_cases hxy : x = y
        · exact Or.inl hxy
        · exact Or.inr ⟨ih.mpr hx, by simpa using hxy⟩

lemma nodup_dedupFirst {α : Type} [DecidableEq α] :
    ∀ l : List α, (dedupFirst l).Nodup := by
  intro l
  induction l with
  | nil => simp [dedupFirst]
  | cons x xs ih =>
    refine List.Pairwise.cons ?_ (ih.filter _)
    intro y hy
    have := (List.mem_filter.mp hy).2
    simp only [ne_eq, decide_not, Bool.not_eq_true', decide_eq_false_iff_not] at this
    exact fun h => this h.symm

lemma insertBy_perm {α : Type} (le : α → α → Bool) (x : α) :
    ∀ l : List α, (insertBy le x l).Perm (x :: l) := by
  intro l
  induction l with
  | nil => exact List.Perm.refl _
  | cons y ys ih =>
    unfold insertBy
    by_cases h : le x y = true
    · rw [if_pos h]
    · rw [if_neg h]
      exact (ih.cons y).trans (List.Perm.swap x y ys)

lemma sortBy_perm {α : Type} (le : α → α → Bool) :
    ∀ l : List α, (sortBy le l).Perm l := by
  intro l
  induction l with
  | nil => exact List.Perm.refl _
  | cons x xs ih => exact (insertBy_perm le x (sortBy le xs)).trans (ih.cons x)

lemma pairwise_insertBy {α : Type} {le : α → α → Bool}
    (htot : ∀ a b, le a b = true ∨ le b a = true)
    (htrans : ∀ a b c, le a b = true → le b c = true → le a c = true)
    (x : α) :
    ∀ {l : List α}, l.Pairwise (fun a b => le a b = true) →
      (insertBy le x l).Pairwise (fun a b => le a b = true) := by
  intro l
  induction l with
  | nil => intro _; exact List.pairwise_singleton _ _
  | cons y ys ih =>
    intro hp
    rcases List.pairwise_cons.mp hp with ⟨hy, hys⟩
    unfold insertBy
    by_cases h : le x y = true
    · rw [if_pos h]
      refine List.pairwise_cons.mpr ⟨?_, hp⟩
      intro z hz
      rcases List.mem_cons.mp hz with rfl | hz
      · exact h
      · exact htrans x y z h (hy z hz)
    · rw [if_neg h]
      have hyx : le y x = true := (htot x y).resolve_left h
      refine List.pairwise_cons.mpr ⟨?_, ih hys⟩
      intro z hz
      rcases List.mem_cons.mp ((insertBy_perm le x ys).mem_iff.mp hz) with rfl | hz'
      · exact hyx
      · exact hy z hz'

lemma pairwise_sortBy {α : Type} {le : α → α → Bool}
    (htot : ∀ a b, le a b = true ∨ le b a = true)
    (htrans : ∀ a b c, le a b = true → le b c = true → le a c = true) :
    ∀ l : List α, (sortBy le l).Pairwise (fun a b => le a b = true) := by
  intro l
  induction l with
  | nil => simp [sortBy]
  | cons x xs ih => exact pairwise_insertBy htot htrans x ih

/-! ### Order facts for the final sort -/

lemma leS_total : ∀ a b : ComparisonRow, leS a b = true ∨ leS b a = true := by
  intro a b
  simp only [leS, decide_eq_true_eq]
  omega

lemma leS_trans : ∀ a b c : ComparisonRow,
    leS a b = true → leS b c = true → leS a c = true := by
  intro a b c
  simp only [leS, decide_eq_true_eq]
  omega

/-- Successful aggregation: neither failure branch fired, and the output is
the sorted pivot of the emitted rows. -/
lemma aggregate_ok_elim {s : List String}
    {pbm : List (String × List (List (String × String)))}
    {out : List ComparisonRow} (hok : aggregate s pbm = .ok out) :
    out = sortBy leS (pivotTable (emitRows pbm)) ∧
      ((emitRows pbm).map fun r => (r.world, r.sentence, r.model)).Nodup := by
  unfold aggregate at hok
  by_cases h1 : pbm.all (fun mp => mp.2.isEmpty) = true
  · rw [if_pos h1] at hok
    cases hok
  · rw [if_neg h1] at hok
    by_cases h2 : ((emitRows pbm).map fun r =>
        (r.world, r.sentence, r.model)).Nodup
    · rw [if_pos h2] at hok
      exact ⟨(Except.ok.inj hok).symm, h2⟩
    · rw [if_neg h2] at hok
      cases hok

/-- The key column of the final table is, up to order, the first-occurrence
deduplication of the emitted keys. -/
lemma out_keys_perm (rows : List PredRow) :
    ((sortBy leS (pivotTable rows)).map fun r => (r.world, r.sentence)).Perm
      (dedupFirst (rows.map fun r => (r.world, r.sentence))) := by
  have h1 := (sortBy_perm leS (pivotTable rows)).map
    fun r : ComparisonRow => (r.world, r.sentence)
  have h2 : (pivotTable rows).map (fun r : ComparisonRow =>
      (r.world, r.sentence)) =
      sortBy leWS (dedupFirst (rows.map fun r => (r.world, r.sentence))) := by
    unfold pivotTable
    rw [List.map_map]
    have hid : ((fun r : ComparisonRow => (r.world, r.sentence)) ∘
        pivotRow rows (modelColumns rows)) = id := by
      funext k
      simp [pivotRow]
    rw [hid, List.map_id]
  rw [h2] at h1
  exact h1.trans (sortBy_perm leWS _)

/-- **C1 (amended)** — the only ordering the program guarantees for every
input is that the returned rows are sorted by `sentence_index` ascending.
The claimed within-sentence first-insertion tie-break is false (see the
counterexample: pandas `pivot` sorts the key index by (token, sentence), so
small outputs — where numpy's quicksort is an insertion sort — come back in
ascending token order instead); beyond numpy's small-array insertion-sort
regime the unstable quicksort fixes no tie order at all, so no universal
within-sentence order replaces it. -/
theorem c1_rows_sorted_by_sentence (s : List String)
    (pbm : List (String × List (List (String × String))))
    (out : List ComparisonRow) (hok : aggregate s pbm = .ok out) :
    out.Pairwise fun a b => a.sentence ≤ b.sentence := by
  obtain ⟨hout, _⟩ := aggregate_ok_elim hok
  subst hout
  exact (pairwise_sortBy leS_total leS_trans (pivotTable (emitRows pbm))).imp
    fun {a b} hab => by simpa [leS] using hab

/-- **C1 counterexample** — one model emits `zebra` then `apple` in sentence
0; first-insertion order would put `zebra` first, but the code returns
`apple` first (this 2-row output is inside numpy's insertion-sort regime,
where the modelled sort is numpy's exact behaviour). -/
theorem c1_counterexample :
    aggregate ["s"] [("bert", [[("zebra", "O"), ("apple", "O")]])] =
      .ok [⟨"apple", 0, [("bert", .lab "O")]⟩,
        ⟨"zebra", 0, [("bert", .lab "O")]⟩] := rfl

/-- Witness for `c1_rows_sorted_by_sentence`. -/
theorem c1_witness :
    aggregate ["s"] [("bert", [[("b", "O"), ("a", "O")], [("c", "O")]])] =
      .ok [⟨"a", 0, [("bert", .lab "O")]⟩, ⟨"b", 0, [("bert", .lab "O")]⟩,
        ⟨"c", 1, [("bert", .lab "O")]⟩] ∧
    ([⟨"a", 0, [("bert", .lab "O")]⟩, ⟨"b", 0, [("bert", .lab "O")]⟩,
      ⟨"c", 1, [("bert", .lab "O")]⟩] : List ComparisonRow).Pairwise
        (fun a b => a.sentence ≤ b.sentence) :=
  ⟨rfl, c1_rows_sorted_by_sentence ["s"]
    [("bert", [[("b", "O"), ("a", "O")], [("c", "O")]])] _ rfl⟩


/-- **C2 (amended)** — on success the output has exactly one row per
distinct `(token, sentence_index)` key observed across all models (no
duplicate keys; every emitted key appears; every labelled cell traces back to
the unique row that model emitted for that key).  But a key emitted *twice by
the same model* is not merged by overriding: it makes the aggregation fail
(pandas `pivot` rejects the duplicated (index, columns) entry) — see the
counterexample. -/
theorem c2_one_row_per_key (s : List String)
    (pbm : List (String × List (List (String × String))))
    (out : List ComparisonRow) (hok : aggregate s pbm = .ok out) :
    (out.map fun r => (r.world, r.sentence)).Nodup ∧
    (∀ w si, ((w, si) ∈ out.map fun r => (r.world, r.sentence)) ↔
      ∃ r ∈ emitRows pbm, r.world = w ∧ r.sentence = si) ∧
    (∀ r ∈ out, ∀ m lb, (m, Cell.lab lb) ∈ r.cells →
      (⟨r.world, lb, r.sentence, m⟩ : PredRow) ∈ emitRows pbm) := by
  obtain ⟨hout, hnd⟩ := aggregate_ok_elim hok
  subst hout
  have hperm := out_keys_perm (emitRows pbm)
  refine ⟨hperm.nodup_iff.mpr (nodup_dedupFirst _), ?_, ?_⟩
  · intro w si
    rw [hperm.mem_iff, mem_dedupFirst, List.mem_map]
    constructor
    · rintro ⟨r, hr, heq⟩
      exact ⟨r, hr, congrArg Prod.fst heq, congrArg Prod.snd heq⟩
    · rintro ⟨r, hr, hw, hs⟩
      exact ⟨r, hr, by rw [hw, hs]⟩
  · intro r hr m lb hcell
    have hr' : r ∈ pivotTable (emitRows pbm) :=
      (sortBy_perm leS _).mem_iff.mp hr
    unfold pivotTable at hr'
    rcases List.mem_map.mp hr' with ⟨k, _, hkr⟩
    subst hkr
    simp only [pivotRow] at hcell
    rcases List.mem_map.mp hcell with ⟨m', _, hmeq⟩
    have hm : m' = m := congrArg Prod.fst hmeq
    have hlook : lookupCell (emitRows pbm) k.1 k.2 m = Cell.lab lb := by
      rw [← hm]
      exact congrArg Prod.snd hmeq
    unfold lookupCell at hlook
    cases hf : (emitRows pbm).find? (fun r' =>
        decide (r'.world = k.1 ∧ r'.sentence = k.2 ∧ r'.model = m)) with
    | none =>
      rw [hf] at hlook
      cases hlook
    | some r' =>
      rw [hf] at hlook
      have hlb : r'.label = lb := by
        injection hlook
      have hmem := List.mem_of_find?_eq_some hf
      have hpred := List.find?_some hf
      simp only [decide_eq_true_eq] at hpred
      obtain ⟨hw, hs, hm2⟩ := hpred
      show (⟨k.1, lb, k.2, m⟩ : PredRow) ∈ emitRows pbm
      have hre : (⟨k.1, lb, k.2, m⟩ : PredRow) = r' := by
        rcases r' with ⟨w', l', s', m''⟩
        simp only at hw hs hm2 hlb
        rw [hw, hs, hm2, hlb]
      rw [hre]
      exact hmem

/-- **C2 counterexample** — the model `bert` emits the key `("the", 0)`
twice (a repeated token in one sentence); instead of overriding the column,
the aggregation fails with the pivot's duplicate-index error. -/
theorem c2_counterexample :
    aggregate ["s"] [("bert", [[("the", "O"), ("the", "O")]])] =
      .error .duplicateIndex := rfl

/-- Witness for `c2_one_row_per_key` at the spec's own two-model scenario. -/
theorem c2_witness :
    aggregate ["x"] [("bert", [[("hi", "O")]]),
        ("distilbert", [[("hi", "B-PER")]])] =
      .ok [⟨"hi", 0, [("bert", .lab "O"), ("distilbert", .lab "B-PER")]⟩] ∧
    (([⟨"hi", 0, [("bert", .lab "O"), ("distilbert", .lab "B-PER")]⟩] :
        List ComparisonRow).map (fun r => (r.world, r.sentence))).Nodup ∧
    (∀ w si, ((w, si) ∈ ([⟨"hi", 0, [("bert", .lab "O"),
        ("distilbert", .lab "B-PER")]⟩] : List ComparisonRow).map
          fun r => (r.world, r.sentence)) ↔
      ∃ r ∈ emitRows [("bert", [[("hi", "O")]]),
        ("distilbert", [[("hi", "B-PER")]])],
          r.world = w ∧ r.sentence = si) ∧
    (∀ r ∈ ([⟨"hi", 0, [("bert", .lab "O"), ("distilbert", .lab "B-PER")]⟩] :
        List ComparisonRow), ∀ m lb, (m, Cell.lab lb) ∈ r.cells →
      (⟨r.world, lb, r.sentence, m⟩ : PredRow) ∈
        emitRows [("bert", [[("hi", "O")]]),
          ("distilbert", [[("hi", "B-PER")]])]) :=
  ⟨rfl, c2_one_row_per_key ["x"] [("bert", [[("hi", "O")]]),
    ("distilbert", [[("hi", "B-PER")]])] _ rfl⟩

/-- **C5 (amended)** — every output row carries one cell per model column,
and the column set is the set of model names that *emitted at least one
prediction* — not the set of all supplied model names: a supplied model whose
prediction frames are all empty gets no column at all (see the
counterexample).  Cells of models that emitted nothing for a key hold the
`fillna` default `0`. -/
theorem c5_columns_are_emitting_models (s : List String)
    (pbm : List (String × List (List (String × String))))
    (out : List ComparisonRow) (hok : aggregate s pbm = .ok out) :
    (∀ r ∈ out, r.cells.map Prod.fst = modelColumns (emitRows pbm)) ∧
    (∀ m, m ∈ modelColumns (emitRows pbm) ↔
      ∃ r ∈ emitRows pbm, r.model = m) ∧
    (∀ r ∈ out, ∀ m, (m, Cell.zero) ∈ r.cells →
      ∀ pr ∈ emitRows pbm,
        ¬(pr.world = r.world ∧ pr.sentence = r.sentence ∧ pr.model = m)) := by
  obtain ⟨hout, _⟩ := aggregate_ok_elim hok
  subst hout
  refine ⟨?_, ?_, ?_⟩
  · intro r hr
    have hr' : r ∈ pivotTable (emitRows pbm) :=
      (sortBy_perm leS _).mem_iff.mp hr
    unfold pivotTable at hr'
    rcases List.mem_map.mp hr' with ⟨k, _, hkr⟩
    subst hkr
    simp only [pivotRow, List.map_map]
    have hid : (Prod.fst ∘ fun m =>
        (m, lookupCell (emitRows pbm) k.1 k.2 m)) = id := rfl
    rw [hid, List.map_id]
  · intro m
    unfold modelColumns
    rw [(sortBy_perm strLe _).mem_iff, mem_dedupFirst, List.mem_map]
  · intro r hr m hcell pr hpr hcontra
    have hr' : r ∈ pivotTable (emitRows pbm) :=
      (sortBy_perm leS _).mem_iff.mp hr
    unfold pivotTable at hr'
    rcases List.mem_map.mp hr' with ⟨k, _, hkr⟩
    subst hkr
    simp only [pivotRow] at hcell
    rcases List.mem_map.mp hcell with ⟨m', _, hmeq⟩
    have hm : m' = m := congrArg Prod.fst hmeq
    have hlook : lookupCell (emitRows pbm) k.1 k.2 m = Cell.zero := by
      rw [← hm]
      exact congrArg Prod.snd hmeq
    unfold lookupCell at hlook
    cases hf : (emitRows pbm).find? (fun r' =>
        decide (r'.world = k.1 ∧ r'.sentence = k.2 ∧ r'.model = m)) with
    | some r' =>
      rw [hf] at hlook
      cases hlook
    | none =>
      have hnone := List.find?_eq_none.mp hf pr hpr
      simp only [decide_eq_true_eq] at hnone
      exact hnone ⟨hcontra.1, hcontra.2.1, hcontra.2.2⟩

/-- **C5 counterexample** — `distilbert` is supplied but emits no prediction
at all (one sentence, zero tokens); the aggregation succeeds and the result
has **no** `distilbert` column — the single row's cells name only `bert` —
contradicting "its column still exists, filled entirely with 0". -/
theorem c5_counterexample :
    aggregate ["s"] [("bert", [[("hi", "O")]]), ("distilbert", [[]])] =
      .ok [⟨"hi", 0, [("bert", .lab "O")]⟩] := rfl

/-- Witness for `c5_columns_are_emitting_models` at a two-model input with
disjoint keys, exercising both labelled and `0` cells. -/
theorem c5_witness :
    aggregate ["x"] [("bert", [[("b", "O")]]), ("albert", [[("a", "B")]])] =
      .ok [⟨"a", 0, [("albert", .lab "B"), ("bert", .zero)]⟩,
        ⟨"b", 0, [("albert", .zero), ("bert", .lab "O")]⟩] ∧
    (∀ r ∈ ([⟨"a", 0, [("albert", .lab "B"), ("bert", .zero)]⟩,
        ⟨"b", 0, [("albert", .zero), ("bert", .lab "O")]⟩] :
          List ComparisonRow),
      r.cells.map Prod.fst =
        modelColumns (emitRows [("bert", [[("b", "O")]]),
          ("albert", [[("a", "B")]])])) ∧
    (∀ m, m ∈ modelColumns (emitRows [("bert", [[("b", "O")]]),
        ("albert", [[("a", "B")]])]) ↔
      ∃ r ∈ emitRows [("bert", [[("b", "O")]]), ("albert", [[("a", "B")]])],
        r.model = m) ∧
    (∀ r ∈ ([⟨"a", 0, [("albert", .lab "B"), ("bert", .zero)]⟩,
        ⟨"b", 0, [("albert", .zero), ("bert", .lab "O")]⟩] :
          List ComparisonRow), ∀ m, (m, Cell.zero) ∈ r.cells →
      ∀ pr ∈ emitRows [("bert", [[("b", "O")]]), ("albert", [[("a", "B")]])],
        ¬(pr.world = r.world ∧ pr.sentence = r.sentence ∧ pr.model = m)) :=
  ⟨rfl, (c5_columns_are_emitting_models ["x"]
      [("bert", [[("b", "O")]]), ("albert", [[("a", "B")]])] _ rfl).1,
    (c5_columns_are_emitting_models ["x"]
      [("bert", [[("b", "O")]]), ("albert", [[("a", "B")]])] _ rfl).2.1,
    (c5_columns_are_emitting_models ["x"]
      [("bert", [[("b", "O")]]), ("albert", [[("a", "B")]])] _ rfl).2.2⟩

/-- **C6 (amended)** — aggregation over an *empty* model mapping does not
return an empty sequence: with no model (hence no per-sentence frame ever
appended) `pd.concat` has no objects to concatenate and raises, so the
aggregator fails. -/
theorem c6_empty_mapping_errors (s : List String) :
    aggregate s [] = .error .noObjectsToConcatenate := rfl

/-- **C6 counterexample** — at the concrete input (one sentence, zero
models) the aggregator raises instead of returning the empty sequence the
claim promises. -/
theorem c6_counterexample :
    aggregate ["hi"] ([] : List (String × List (List (String × String)))) =
      .error .noObjectsToConcatenate := rfl

/-- **C7 (amended)** — the aggregator performs *no* shape check at all: its
result is entirely independent of the sentence list (which the source only
ever forwards to the opaque `predict` call), so a model whose prediction
sequence length differs from the sentence count is processed at its own
indices without any `ShapeMismatch` signal. -/
theorem c7_no_shape_check (s1 s2 : List String)
    (pbm : List (String × List (List (String × String)))) :
    aggregate s1 pbm = aggregate s2 pbm := rfl

/-- **C7 counterexample** — one input sentence but two per-sentence
prediction lists: no error is signalled; the extra list is aggregated under
sentence index 1 as if that sentence existed. -/
theorem c7_counterexample :
    aggregate ["hi"] [("bert", [[("a", "O")], [("b", "O")]])] =
      .ok [⟨"a", 0, [("bert", .lab "O")]⟩,
        ⟨"b", 1, [("bert", .lab "O")]⟩] := rfl

end GetPrepareData
